import Mathlib

/-!
# Verification of the posteriogram-to-note decoder

A shallow embedding of the note-decoding pipeline of the automatic music
transcription backend:

* `backend/postprocessing/postprocessing.py` (class `MusicTranscriptionPostprocessor`):
  onset detection, duration estimation, note assembly, velocity, musical
  constraints, merging, and conversion to the output note format;
* `backend/app.py`: MIDI event generation (`create_midi_from_notes`), audio
  chunking and deduplication (`split_audio_into_chunks`, `process_single_chunk`,
  `remove_duplicate_notes`, `process_long_audio_in_chunks`).

Python floats are modelled as exact rationals (`ℚ`), Python ints as `ℤ`/`ℕ`.
Python's stable `list.sort(key=...)` is modelled as `List.insertionSort` with the
non-strict key order (a stable sort is unique, so any stable sort is a faithful
model of Timsort's observable behaviour).  Calls into external libraries
(SciPy's `gaussian_filter1d` and `find_peaks`, librosa's `midi_to_hz`, audio
I/O, the neural model) are modelled as explicit function/oracle parameters.
-/

namespace AMT

/-- Python `int(...)` applied to a float: truncation toward zero. -/
def pyInt (q : ℚ) : Int :=
  if q < 0 then -Rat.floor (-q) else Rat.floor q

/-- A posteriogram matrix `[time_frames, 88]`: a list of rows, one row per
time frame, one entry per pitch. -/
def Mat : Type := List (List ℚ)

/-- `m[t:, p]` style column extraction: value of pitch channel `p` at each
remaining frame (missing entries read as 0; the Python code only indexes in
range). -/
def matColumn (m : Mat) (p : Nat) : List ℚ :=
  (m : List (List ℚ)).map (fun row => row.getD p 0)

/-- Number of rows (`shape[0]`). -/
def matRows (m : Mat) : Nat := (m : List (List ℚ)).length

/-- Number of columns (`shape[1]`, read off the first row). -/
def matCols (m : Mat) : Nat := ((m : List (List ℚ)).headD []).length

/-- The configuration constants of `MusicTranscriptionPostprocessor.__init__`,
with the source's default values. -/
structure Config where
  onset_threshold : ℚ := 3/10
  frame_threshold : ℚ := 3/10
  min_note_duration : ℚ := 1/20
  max_note_duration : ℚ := 8
  merge_gap_threshold : ℚ := 1/20
  time_resolution : ℚ := 4/125

/-- The default configuration (also the values `app.py` passes explicitly in
`extract_notes_from_predictions`). -/
def defaultCfg : Config := {}

/-- A raw note record as built by `create_notes_from_onsets_and_endings` and
enriched by `add_velocity_to_notes` (velocity fields are `Option` because the
dict keys are absent until that step runs). -/
structure RNote where
  onset_frame : Int
  offset_frame : Int
  pitch_idx : Int
  duration_seconds : ℚ
  onset_confidence : ℚ
  velocity_raw : Option ℚ := none
  velocity_scaled : Option ℚ := none
  velocity_midi : Option Int := none
deriving DecidableEq, Repr

/-- A final note event as produced by `convert_to_music_format`. -/
structure MusicNote where
  note_name : String
  time : ℚ
  duration : ℚ
  velocity : ℚ
  velocity_midi : Int
  pitch : Int
  frequency : ℚ
deriving DecidableEq, Repr

/-- Key order of `notes.sort(key=lambda x: (x['pitch_idx'], x['onset_frame']))`. -/
def pitchOnsetLe (a b : RNote) : Prop :=
  a.pitch_idx < b.pitch_idx ∨ (a.pitch_idx = b.pitch_idx ∧ a.onset_frame ≤ b.onset_frame)

instance : DecidableRel pitchOnsetLe := fun x y =>
  inferInstanceAs (Decidable (x.pitch_idx < y.pitch_idx ∨
    (x.pitch_idx = y.pitch_idx ∧ x.onset_frame ≤ y.onset_frame)))

instance : IsTotal RNote pitchOnsetLe :=
  ⟨fun a b => by unfold pitchOnsetLe; omega⟩

instance : IsTrans RNote pitchOnsetLe :=
  ⟨fun a b c hab hbc => by unfold pitchOnsetLe at *; omega⟩

/-- Key order of `music_notes.sort(key=lambda x: x["time"])` and
`all_notes.sort(key=lambda x: x['time'])`. -/
def noteTimeLe (a b : MusicNote) : Prop := a.time ≤ b.time

instance : DecidableRel noteTimeLe := fun a b =>
  inferInstanceAs (Decidable (a.time ≤ b.time))

instance : IsTotal MusicNote noteTimeLe := ⟨fun a b => le_total a.time b.time⟩

instance : IsTrans MusicNote noteTimeLe := ⟨fun _ _ _ hab hbc => le_trans hab hbc⟩

/-- Non-strict order on onset frames (used for reasoning about per-pitch lists). -/
def onsetLe (a b : RNote) : Prop := a.onset_frame ≤ b.onset_frame

instance : DecidableRel onsetLe := fun a b =>
  inferInstanceAs (Decidable (a.onset_frame ≤ b.onset_frame))

/-- First index whose value satisfies the predicate: `np.where(cond)[0][0]`
when it exists.  (Structurally recursive so that concrete instances evaluate
inside the kernel.) -/
def firstIdx (p : ℚ → Bool) : List ℚ → Option Nat
  | [] => none
  | v :: rest => if p v then some 0 else (firstIdx p rest).map (· + 1)

/-- `find_note_endings_from_frames` (postprocessing.py, lines 57–100): for each
onset `(frame, pitch)`, scan the frame-activation column from the onset for the
first drop below `frame_threshold`, confirm the drop over
`max(1, int(0.02/time_resolution))` frames, and fall back to default durations
when no (confirmed) drop exists. -/
def find_note_endings_from_frames (cfg : Config) (framePreds : Mat)
    (onsets : List (Nat × Nat)) : List (Int × Nat) :=
  onsets.map fun op =>
    let onset_time := op.1
    let pitch_idx := op.2
    let remaining := matColumn ((framePreds : List (List ℚ)).drop onset_time) pitch_idx
    match firstIdx (fun v => decide (v < cfg.frame_threshold)) remaining with
    | some candidate_end =>
      let confirmation_frames : Int := max 1 (pyInt (1/50 / cfg.time_resolution))
      if (candidate_end : Int) + confirmation_frames < remaining.length then
        let next_frames := (remaining.drop candidate_end).take confirmation_frames.toNat
        if next_frames.all (fun v => decide (v < cfg.frame_threshold)) then
          ((onset_time : Int) + candidate_end, pitch_idx)
        else
          match (List.range' (candidate_end + 1)
                  (remaining.length - confirmation_frames.toNat - (candidate_end + 1))).find?
                  (fun i => ((remaining.drop i).take confirmation_frames.toNat).all
                    (fun v => decide (v < cfg.frame_threshold))) with
          | some i => ((onset_time : Int) + i, pitch_idx)
          | none =>
            let default_duration_frames := pyInt (1/2 / cfg.time_resolution)
            (min ((onset_time : Int) + default_duration_frames)
               ((onset_time : Int) + remaining.length - 1), pitch_idx)
      else
        ((onset_time : Int) + candidate_end, pitch_idx)
    | none =>
      let default_duration_frames := pyInt (1 / cfg.time_resolution)
      (min ((onset_time : Int) + default_duration_frames)
         ((matRows framePreds : Int) - 1), pitch_idx)

/-- `detect_onsets_with_peaks` (postprocessing.py, lines 33–55).  SciPy's
`find_peaks` is an external routine, passed in as `findPeaks curve height
distance prominence`.  The three parallel result lists are represented in
zipped form `(frame, pitch, confidence)`, which is how every consumer reads
them. -/
def detect_onsets_with_peaks (findPeaks : List ℚ → ℚ → Int → ℚ → List Nat)
    (cfg : Config) (onsetPreds : Mat) : List (Nat × Nat × ℚ) :=
  (List.range (matCols onsetPreds)).flatMap fun pitch_idx =>
    let onset_curve := matColumn onsetPreds pitch_idx
    (findPeaks onset_curve cfg.onset_threshold (pyInt (1/20 / cfg.time_resolution))
        (1/10)).map
      fun peak_idx => (peak_idx, pitch_idx, onset_curve.getD peak_idx 0)

/-- Key order for `onset_data.sort(key=lambda x: x[0])`. -/
def fstNatLe (a b : Nat × Nat × ℚ) : Prop := a.1 ≤ b.1

instance : DecidableRel fstNatLe := fun a b => inferInstanceAs (Decidable (a.1 ≤ b.1))

/-- Key order for `endings_data.sort(key=lambda x: x[0])`. -/
def fstIntLe (a b : Int × Nat) : Prop := a.1 ≤ b.1

instance : DecidableRel fstIntLe := fun a b => inferInstanceAs (Decidable (a.1 ≤ b.1))

/-- `create_notes_from_onsets_and_endings` (postprocessing.py, lines 102–133):
sort onsets and endings by frame, pair each onset with the first ending of the
same pitch strictly after it, and keep the pair only when the resulting
duration lies within `[min_note_duration, max_note_duration]`. -/
def create_notes_from_onsets_and_endings (cfg : Config)
    (onset_data : List (Nat × Nat × ℚ)) (note_endings : List (Int × Nat)) :
    List RNote :=
  let onset_sorted := List.insertionSort fstNatLe onset_data
  let endings_sorted := List.insertionSort fstIntLe note_endings
  onset_sorted.flatMap fun oc =>
    let onset_time := oc.1
    let pitch_idx := oc.2.1
    let confidence := oc.2.2
    match endings_sorted.find?
        (fun e => decide (e.2 = pitch_idx ∧ (onset_time : Int) < e.1)) with
    | some e =>
      let duration_frames : Int := e.1 - onset_time
      let duration_seconds : ℚ := duration_frames * cfg.time_resolution
      if cfg.min_note_duration ≤ duration_seconds ∧
          duration_seconds ≤ cfg.max_note_duration then
        [{ onset_frame := onset_time, offset_frame := e.1, pitch_idx := pitch_idx,
           duration_seconds := duration_seconds, onset_confidence := confidence }]
      else []
    | none => []

/-- `add_velocity_to_notes` (postprocessing.py, lines 135–151).  The Python
method mutates the note dicts in place; the embedding returns the updated
list. -/
def add_velocity_to_notes (notes : List RNote) (velocityPreds : Mat) : List RNote :=
  notes.map fun note =>
    let raw_velocity :=
      (((velocityPreds : List (List ℚ)).getD note.onset_frame.toNat []).getD
        note.pitch_idx.toNat 0)
    let velocity_scaled := max 0 (min 1 raw_velocity)
    let vm := pyInt (velocity_scaled * 127)
    let velocity_midi := if vm < 20 then 60 else vm
    { note with velocity_raw := some raw_velocity,
                velocity_scaled := some velocity_scaled,
                velocity_midi := some velocity_midi }

/-- `apply_musical_constraints` (postprocessing.py, lines 205–226): drop notes
longer than `max_note_duration` and notes whose MIDI pitch `pitch_idx + 21`
falls outside `[21, 108]`. -/
def apply_musical_constraints (cfg : Config) (notes : List RNote) : List RNote :=
  notes.filter fun note =>
    decide (¬ cfg.max_note_duration < note.duration_seconds ∧
      21 ≤ note.pitch_idx + 21 ∧ note.pitch_idx + 21 ≤ 108)

/-- One merge step of `clean_and_merge_notes`: the current note absorbs the
next one — `offset_frame` is set (unconditionally) to the next note's
`offset_frame`, the duration is recomputed, and the velocity is the max of the
two when the next note carries one. -/
def mergeNotes (cfg : Config) (cur next : RNote) : RNote :=
  { cur with
    offset_frame := next.offset_frame
    duration_seconds := ((next.offset_frame - cur.onset_frame : Int) : ℚ) *
      cfg.time_resolution
    velocity_midi :=
      match next.velocity_midi with
      | some v => some (max (cur.velocity_midi.getD 60) v)
      | none => cur.velocity_midi }

/-- The nested while-loops of `clean_and_merge_notes` (lines 166–195) on one
pitch's onset-sorted note list, written with explicit fuel so that the
definition is structurally recursive (the loop consumes at least one list
element per step, so `fuel = length` always suffices; see
`mergeLoop_eq_mergeChains`). -/
def mergeLoop (cfg : Config) : Nat → List RNote → List RNote
  | _, [] => []
  | _, [n] => [n]
  | 0, n :: m :: rest => n :: m :: rest
  | fuel + 1, n :: m :: rest =>
    if ((m.onset_frame - n.offset_frame : Int) : ℚ) * cfg.time_resolution ≤
        cfg.merge_gap_threshold then
      mergeLoop cfg fuel (mergeNotes cfg n m :: rest)
    else
      n :: mergeLoop cfg fuel (m :: rest)

/-- The per-pitch merge pass of `clean_and_merge_notes`. -/
def mergeChains (cfg : Config) (l : List RNote) : List RNote :=
  mergeLoop cfg l.length l

/-- `[n for n in notes if n['pitch_idx'] == pitch_idx]`. -/
def pitchFilter (pitch_idx : Nat) (l : List RNote) : List RNote :=
  l.filter fun n => decide (n.pitch_idx = (pitch_idx : Int))

/-- The final filter of `clean_and_merge_notes`: keep notes with
`duration_seconds >= min_note_duration`. -/
def durFilter (cfg : Config) (l : List RNote) : List RNote :=
  l.filter fun note => decide (cfg.min_note_duration ≤ note.duration_seconds)

/-- Merging never happens between `x` and a later note `y`: the gap from `x`'s
end to `y`'s onset exceeds the merge-gap threshold.  The merge pass's output
satisfies this pairwise (see `mergeLoop_sorted_sep`), which is what makes a
second pass a no-op. -/
def noMerge (cfg : Config) (x y : RNote) : Prop :=
  ¬ ((y.onset_frame - x.offset_frame : Int) : ℚ) * cfg.time_resolution ≤
      cfg.merge_gap_threshold

/-- `clean_and_merge_notes` (postprocessing.py, lines 153–203): sort by
`(pitch_idx, onset_frame)`, merge near-adjacent same-pitch notes for each of
the 88 pitches, then drop notes shorter than `min_note_duration`. -/
def clean_and_merge_notes (cfg : Config) (notes : List RNote) : List RNote :=
  if notes.isEmpty then notes
  else
    let sorted := List.insertionSort pitchOnsetLe notes
    let cleaned := (List.range 88).flatMap fun pitch_idx =>
      mergeChains cfg (pitchFilter pitch_idx sorted)
    durFilter cfg cleaned

/-- Sharpened spelling of a pitch-class name. -/
def sharp (base : String) : String := base ++ "#"

/-- The twelve pitch-class names of `pitch_to_note_name`. -/
def noteNames : List String :=
  ["C", sharp "C", "D", sharp "D", "E", "F", sharp "F", "G",
   sharp "G", "A", sharp "A", "B"]

/-- MIDI pitch number to note name; Python `//` is floor division and `%` a
floor-convention remainder, i.e. `Int.fdiv`/`Int.emod`. -/
def pitch_to_note_name (pitch : Int) : String :=
  noteNames.getD (Int.emod pitch 12).toNat "" ++ toString (Int.fdiv pitch 12 - 1)

/-- `convert_to_music_format` (postprocessing.py, lines 228–252).  librosa's
`midi_to_hz` is an external routine, passed in as `midiToHz`. -/
def convert_to_music_format (midiToHz : Int → ℚ) (cfg : Config)
    (processed_notes : List RNote) : List MusicNote :=
  let music_notes := processed_notes.map fun note =>
    let midi_pitch := note.pitch_idx + 21
    { note_name := pitch_to_note_name midi_pitch
      time := ((note.onset_frame : Int) : ℚ) * cfg.time_resolution
      duration := note.duration_seconds
      velocity := note.velocity_raw.getD (3/5)
      velocity_midi := note.velocity_midi.getD 80
      pitch := midi_pitch
      frequency := midiToHz midi_pitch }
  List.insertionSort noteTimeLe music_notes

/-- The model-output formats accepted by `process_predictions`: three outputs
(onset, frame, velocity) or four (onset, frame, offset, velocity), each already
indexed at batch 0. -/
inductive Predictions
  | three (onset frame velocity : Mat)
  | four (onset frame offset velocity : Mat)

/-- `process_predictions` (postprocessing.py, lines 261–320): the full decode
pass.  SciPy's `gaussian_filter1d` (the smoother, called with `sigma` 1.0 for
onsets and 0.5 for frames) and `find_peaks` are external routines passed as
`smooth` and `findPeaks`.  In the four-output case the offset matrix is bound
but — exactly as in the source — never used. -/
def process_predictions (smooth : Mat → ℚ → Mat)
    (findPeaks : List ℚ → ℚ → Int → ℚ → List Nat) (midiToHz : Int → ℚ)
    (cfg : Config) (predictions : Predictions) : List MusicNote :=
  let go : Mat → Mat → Mat → List MusicNote := fun onset_preds frame_preds velocity_preds =>
    let onset_preds := smooth onset_preds 1
    let frame_preds := smooth frame_preds (1/2)
    let onsets := detect_onsets_with_peaks findPeaks cfg onset_preds
    let note_endings := find_note_endings_from_frames cfg frame_preds
      (onsets.map fun oc => (oc.1, oc.2.1))
    let notes := create_notes_from_onsets_and_endings cfg onsets note_endings
    let notes := add_velocity_to_notes notes velocity_preds
    let constrained_notes := apply_musical_constraints cfg notes
    let cleaned_notes := clean_and_merge_notes cfg constrained_notes
    convert_to_music_format midiToHz cfg cleaned_notes
  match predictions with
  | .three onset_preds frame_preds velocity_preds =>
    go onset_preds frame_preds velocity_preds
  | .four onset_preds frame_preds _offset_preds velocity_preds =>
    go onset_preds frame_preds velocity_preds

/-- The specification side of claim C3, for comparison with the source.  The
spec's §4.3 first tier reads: "If an offset curve is supplied: scan forward
from the onset frame for the first frame where offset-activation exceeds its
own threshold; if found, that frame is the candidate end."  No function in the
repository implements this scan; this definition follows the specification's
words. -/
def spec_offset_candidate_end (offset_threshold : ℚ) (offsetPreds : Mat)
    (onset_frame pitch_idx : Nat) : Option Nat :=
  (firstIdx (fun v => decide (offset_threshold < v))
      (matColumn ((offsetPreds : List (List ℚ)).drop onset_frame) pitch_idx)).map
    (fun i => onset_frame + i)

/-! ## app.py: MIDI event generation -/

/-- The two MIDI channel message kinds emitted by `create_midi_from_notes`. -/
inductive MsgType
  | note_off
  | note_on
deriving DecidableEq, Repr

/-- Index giving the lexicographic position of the Python strings
`'note_off' < 'note_on'` used by `events.sort()`. -/
def msgIdx : MsgType → Nat
  | .note_off => 0
  | .note_on => 1

/-- One entry of the `events` list of `create_midi_from_notes`: the tuple
`(abs_time, msg_type, pitch, velocity)`. -/
structure MidiEvent where
  abs_time : Int
  msg_type : MsgType
  pitch : Int
  velocity : Int
deriving DecidableEq, Repr

/-- The lexicographic tuple order applied by Python's `events.sort()` to
`(abs_time, 'note_off'|'note_on', pitch, velocity)` tuples. -/
def eventLe (a b : MidiEvent) : Prop :=
  a.abs_time < b.abs_time ∨ (a.abs_time = b.abs_time ∧
    (msgIdx a.msg_type < msgIdx b.msg_type ∨ (a.msg_type = b.msg_type ∧
      (a.pitch < b.pitch ∨ (a.pitch = b.pitch ∧ a.velocity ≤ b.velocity)))))

instance : DecidableRel eventLe := fun a b =>
  inferInstanceAs (Decidable (a.abs_time < b.abs_time ∨ (a.abs_time = b.abs_time ∧
    (msgIdx a.msg_type < msgIdx b.msg_type ∨ (a.msg_type = b.msg_type ∧
      (a.pitch < b.pitch ∨ (a.pitch = b.pitch ∧ a.velocity ≤ b.velocity)))))))

/-- `ticks_per_beat / (tempo / 1000000)` with `ticks_per_beat = 480` and
`tempo = 500000` (create_midi_from_notes, lines 459–461); both floating-point
divisions are exact, so the rational value is the float value. -/
def ticks_per_second : ℚ := 480 / (500000 / 1000000)

/-- The absolute-tick on/off event list built by `create_midi_from_notes`
(app.py, lines 443–483): sort notes by time, drop notes with negative time or
non-positive duration, convert to ticks, clamp velocities (the `> 5 → 100`
sanity rule then the `[0, 127]` clamp), and sort the events by the Python
tuple order. -/
def create_midi_events (notes : List MusicNote) : List MidiEvent :=
  let sorted := List.insertionSort noteTimeLe notes
  let events := sorted.flatMap fun note =>
    if note.time < 0 ∨ note.duration ≤ 0 then []
    else
      let onset_time_ticks := pyInt (max 0 (note.time * ticks_per_second))
      let offset_time_ticks := onset_time_ticks +
        pyInt (max 1 (note.duration * ticks_per_second))
      let velocity_raw := note.velocity_midi
      let velocity_raw := if 5 < velocity_raw then 100 else velocity_raw
      let velocity := max 0 (min 127 velocity_raw)
      [{ abs_time := onset_time_ticks, msg_type := .note_on, pitch := note.pitch,
         velocity := velocity },
       { abs_time := offset_time_ticks, msg_type := .note_off, pitch := note.pitch,
         velocity := 0 }]
  List.insertionSort eventLe events

/-- The absolute tick of the note-on event `create_midi_events` emits for a
note (when the note is emitted at all). -/
def onsetTick (note : MusicNote) : Int :=
  pyInt (max 0 (note.time * ticks_per_second))

/-! ## app.py: chunk coordinator and deduplication -/

/-- `calculate_chunk_duration_and_overlap` (app.py, lines 774–795):
`(626 * 512 / 16000, 2.0)`. -/
def calculate_chunk_duration_and_overlap : ℚ × ℚ := (626 * 512 / 16000, 2)

/-- Python `unique_notes[-10:]`: the last (up to) ten accepted notes. -/
def lastTen (l : List MusicNote) : List MusicNote := l.drop (l.length - 10)

/-- The duplicate test of `remove_duplicate_notes` (app.py, lines 931–941):
same pitch and time difference below 0.5 seconds. -/
def isDuplicateOf (note existing : MusicNote) : Prop :=
  |note.pitch - existing.pitch| = 0 ∧ |note.time - existing.time| < 1/2

instance : DecidableRel isDuplicateOf := fun a b =>
  inferInstanceAs (Decidable (|a.pitch - b.pitch| = 0 ∧ |a.time - b.time| < 1/2))

/-- The accumulation loop of `remove_duplicate_notes`: each note is accepted
(appended to `unique_notes`) unless one of the last ten accepted notes makes it
a duplicate. -/
def dedupScan : List MusicNote → List MusicNote → List MusicNote
  | unique_notes, [] => unique_notes
  | unique_notes, note :: rest =>
    if (lastTen unique_notes).any (fun e => decide (isDuplicateOf note e)) then
      dedupScan unique_notes rest
    else
      dedupScan (unique_notes ++ [note]) rest

/-- `remove_duplicate_notes` (app.py, lines 906–949).  The `overlap_duration`
parameter is part of the signature but — as in the source — never read. -/
def remove_duplicate_notes (all_notes : List MusicNote)
    (_overlap_duration : ℚ := 2) : List MusicNote :=
  if all_notes.isEmpty then []
  else dedupScan [] (List.insertionSort noteTimeLe all_notes)

/-- The external world of the chunk coordinator: the outcome of the audio
loading/splitting performed inside the `try` of `split_audio_into_chunks`
(librosa + soundfile), and the outcome of `extract_mel_spectrogram →
model.predict → extract_notes_from_predictions` for each audio path.  A chunk
is `(path, start_time, end_time)`. -/
structure ChunkEnv where
  splitResult : Except String (List (String × ℚ × ℚ))
  decodeChunk : String → Except String (List MusicNote)

/-- `split_audio_into_chunks` (app.py, lines 798–863): on any exception in the
body, fall back to returning the original file as a single chunk
`[(audio_path, 0.0, 0.0)]`. -/
def split_audio_into_chunks (env : ChunkEnv) (audio_path : String) :
    List (String × ℚ × ℚ) :=
  match env.splitResult with
  | .ok chunks => chunks
  | .error _ => [(audio_path, 0, 0)]

/-- `process_single_chunk` (app.py, lines 866–903): decode one chunk and shift
its notes by the chunk's start offset; on any exception return the empty
list. -/
def process_single_chunk (env : ChunkEnv) (chunk_path : String)
    (start_offset : ℚ) : List MusicNote :=
  match env.decodeChunk chunk_path with
  | .ok notes => notes.map fun note => { note with time := note.time + start_offset }
  | .error _ => []

/-- `process_long_audio_in_chunks` (app.py, lines 952–1018).  With one chunk
the whole audio is decoded directly; with several, each chunk is decoded via
`process_single_chunk` and the concatenation deduplicated.  The outer
`except` handler re-runs the whole-audio decode (deterministically, so a body
failure reaches the caller as the fallback decode's own outcome); an `error`
result models an exception propagating to the caller. -/
def process_long_audio_in_chunks (env : ChunkEnv) (audio_path : String) :
    Except String (List MusicNote) :=
  let chunks := split_audio_into_chunks env audio_path
  if chunks.length = 1 then
    match env.decodeChunk audio_path with
    | .ok notes => .ok notes
    | .error _ => env.decodeChunk audio_path
  else
    .ok (remove_duplicate_notes
      (chunks.flatMap fun c => process_single_chunk env c.1 c.2.1)
      calculate_chunk_duration_and_overlap.2)

/-! ## Concrete instances used by the closed theorems below -/

/-- A note event at 2.0 s lasting 0.5 s (the round-trip-timing scenario). -/
def tNote : MusicNote :=
  { note_name := "C4", time := 2, duration := 1/2, velocity := 4/5,
    velocity_midi := 90, pitch := 60, frequency := 262 }

/-- A long raw note (100 frames, 3.2 s). -/
def nA : RNote :=
  { onset_frame := 0, offset_frame := 100, pitch_idx := 0,
    duration_seconds := 16/5, onset_confidence := 1 }

/-- A contained fragment of the same pitch: starts inside `nA` (frame 1) and
ends at frame 1, before `nA`'s end. -/
def nB : RNote :=
  { onset_frame := 1, offset_frame := 1, pitch_idx := 0,
    duration_seconds := 1/10, onset_confidence := 1 }

/-- A 40-frame one-pitch frame-activation matrix that never drops below the
frame threshold. -/
def frameAllOn : Mat := List.replicate 40 [1]

/-- A 40-frame one-pitch offset-activation matrix with a single clear spike at
frame 2. -/
def offSpike : Mat := (List.range 40).map fun i => if i = 2 then [1] else [0]

/-- A raw note produced by pairing onset frame 0 with ending frame 10. -/
def wNote : RNote :=
  { onset_frame := 0, offset_frame := 10, pitch_idx := 0,
    duration_seconds := 8/25, onset_confidence := 1 }

/-- Accepted first note of the deduplication counterexample (time 0 s). -/
def dupA : MusicNote :=
  { note_name := "C4", time := 0, duration := 1, velocity := 1/2,
    velocity_midi := 80, pitch := 60, frequency := 262 }

/-- Same pitch 0.4 s later: dropped as a duplicate of `dupA`. -/
def dupB : MusicNote := { dupA with time := 2/5 }

/-- Same pitch 0.45 s in: dropped as a duplicate of `dupA` as well, although
it is within 0.05 s of `dupB`. -/
def dupD : MusicNote := { dupA with time := 9/20 }

instance {e a : Type} [DecidableEq e] [DecidableEq a] : DecidableEq (Except e a)
  | .error x, .error y => decidable_of_iff (x = y) (by simp)
  | .error _, .ok _ => isFalse (by simp)
  | .ok _, .error _ => isFalse (by simp)
  | .ok x, .ok y => decidable_of_iff (x = y) (by simp)

/-- A note found inside the second chunk (local time 1 s). -/
def chunkNote : MusicNote :=
  { note_name := "A4", time := 1, duration := 1/2, velocity := 1/2,
    velocity_midi := 80, pitch := 69, frequency := 440 }

/-- The chunk note shifted into the global timeline (1 + 2254/125 s). -/
def shiftedChunkNote : MusicNote := { chunkNote with time := 2379/125 }

/-- A distinguishable note returned by a whole-audio decode. -/
def fullNote : MusicNote :=
  { note_name := "E2", time := 5, duration := 1, velocity := 1/2,
    velocity_midi := 70, pitch := 40, frequency := 82 }

/-- A world where splitting succeeds with two chunks, the first chunk's decode
raises, the second chunk's decode finds `chunkNote`, and a whole-audio decode
would find `fullNote`. -/
def envChunkFail : ChunkEnv :=
  { splitResult := .ok [("chunk0.wav", 0, 2504/125), ("chunk1.wav", 2254/125, 38)]
    decodeChunk := fun p =>
      if p = "chunk0.wav" then .error "model failure"
      else if p = "chunk1.wav" then .ok [chunkNote]
      else .ok [fullNote] }

/-- A world where splitting itself raises and the whole-audio decode
succeeds. -/
def envSplitFail : ChunkEnv :=
  { splitResult := .error "librosa failure"
    decodeChunk := fun _ => .ok [fullNote] }

/-- A world with two chunks used to witness that replacing a failed chunk
decode by an empty decode does not change the outcome. -/
def envOneBad : ChunkEnv :=
  { splitResult := .ok [("c0.wav", 0, 2504/125), ("c1.wav", 2254/125, 30)]
    decodeChunk := fun p =>
      if p = "c0.wav" then .ok [chunkNote] else .error "decode failure" }

/-- A 1×1 velocity posteriogram with activation 0.05 at the origin. -/
def vp0 : Mat := [[1/20]]

/-- The raw note whose velocity the floor scenario inspects. -/
def rn0 : RNote :=
  { onset_frame := 0, offset_frame := 10, pitch_idx := 0,
    duration_seconds := 8/25, onset_confidence := 1 }

/-- The enriched form of `rn0` after the velocity step on `vp0`. -/
def rnV : RNote :=
  { rn0 with velocity_raw := some (1/20), velocity_scaled := some (1/20),
             velocity_midi := some 60 }

/-- A note event with a velocity below the sanity ceiling (3 on the 0–127
scale) at 4 s. -/
def lowNote : MusicNote := { tNote with velocity_midi := 3, time := 4 }

unseal Rat.mul Rat.add Rat.sub Rat.inv

/-! ## Helper lemmas -/

theorem dedupScan_append (l₁ l₂ acc : List MusicNote) :
    dedupScan acc (l₁ ++ l₂) = dedupScan (dedupScan acc l₁) l₂ := by
  induction l₁ generalizing acc with
  | nil => rfl
  | cons n rest ih =>
    rw [List.cons_append]
    simp only [dedupScan]
    by_cases h : (lastTen acc).any (fun e => decide (isDuplicateOf n e))
    · simp only [if_pos h]
      exact ih acc
    · simp only [if_neg h]
      exact ih (acc ++ [n])

theorem dedupScan_eq_append (l acc : List MusicNote) :
    ∃ s, dedupScan acc l = acc ++ s ∧ List.Sublist s l := by
  induction l generalizing acc with
  | nil => exact ⟨[], (List.append_nil acc).symm, List.Sublist.refl []⟩
  | cons n rest ih =>
    simp only [dedupScan]
    by_cases h : (lastTen acc).any (fun e => decide (isDuplicateOf n e))
    · obtain ⟨s, h1, h2⟩ := ih acc
      exact ⟨s, by rw [if_pos h]; exact h1, h2.cons n⟩
    · obtain ⟨s, h1, h2⟩ := ih (acc ++ [n])
      refine ⟨n :: s, ?_, h2.cons₂ n⟩
      rw [if_neg h, h1, List.append_assoc, List.singleton_append]

theorem mem_lastTen_of_short (xs s : List MusicNote) (a : MusicNote)
    (hs : s.length ≤ 9) : a ∈ lastTen ((xs ++ [a]) ++ s) := by
  unfold lastTen
  rw [List.append_assoc, List.singleton_append, List.drop_append_eq_append_drop]
  refine List.mem_append.mpr (Or.inr ?_)
  have h0 : (xs ++ a :: s).length - 10 - xs.length = 0 := by
    simp only [List.length_append, List.length_cons]
    omega
  rw [h0]
  exact List.mem_cons_self a s

theorem mergeLoop_fuel_eq (cfg : Config) :
    ∀ (fuel₁ fuel₂ : Nat) (l : List RNote), l.length ≤ fuel₁ → l.length ≤ fuel₂ →
      mergeLoop cfg fuel₁ l = mergeLoop cfg fuel₂ l := by
  intro fuel₁
  induction fuel₁ with
  | zero =>
    intro fuel₂ l h₁ _
    match l with
    | [] => cases fuel₂ <;> rfl
    | [n] => cases fuel₂ <;> rfl
    | n :: m :: rest => simp at h₁
  | succ f ih =>
    intro fuel₂ l h₁ h₂
    match l with
    | [] => cases fuel₂ <;> rfl
    | [n] => cases fuel₂ <;> rfl
    | n :: m :: rest =>
      cases fuel₂ with
      | zero => simp at h₂
      | succ f₂ =>
        simp only [mergeLoop]
        simp only [List.length_cons] at h₁ h₂
        split
        · exact ih f₂ _ (by simp; omega) (by simp; omega)
        · rw [ih f₂ (m :: rest) (by simp; omega) (by simp; omega)]


theorem mergeLoop_trace (cfg : Config) :
    ∀ (fuel : Nat) (l : List RNote), l.length ≤ fuel →
      ∀ y ∈ mergeLoop cfg fuel l, ∃ z ∈ l,
        y.onset_frame = z.onset_frame ∧ y.pitch_idx = z.pitch_idx := by
  intro fuel
  induction fuel with
  | zero =>
    intro l h y hy
    match l with
    | [] => simp [mergeLoop] at hy
    | [n] =>
      simp only [mergeLoop, List.mem_singleton] at hy
      exact ⟨n, List.mem_singleton_self n, by simp [hy]⟩
    | n :: m :: rest => simp at h
  | succ f ih =>
    intro l h y hy
    match l with
    | [] => simp [mergeLoop] at hy
    | [n] =>
      simp only [mergeLoop, List.mem_singleton] at hy
      exact ⟨n, List.mem_singleton_self n, by simp [hy]⟩
    | n :: m :: rest =>
      simp only [List.length_cons] at h
      simp only [mergeLoop] at hy
      split at hy
      · obtain ⟨z, hz, hoz⟩ := ih _ (by simp; omega) y hy
        rcases List.mem_cons.mp hz with rfl | hz'
        · exact ⟨n, List.mem_cons_self n _, hoz⟩
        · exact ⟨z, List.mem_cons_of_mem n (List.mem_cons_of_mem m hz'), hoz⟩
      · rcases List.mem_cons.mp hy with rfl | hy'
        · exact ⟨y, List.mem_cons_self y _, rfl, rfl⟩
        · obtain ⟨z, hz, hoz⟩ := ih _ (by simp; omega) y hy'
          exact ⟨z, List.mem_cons_of_mem n hz, hoz⟩


theorem mergeLoop_sorted_sep (cfg : Config) (hres : 0 ≤ cfg.time_resolution) :
    ∀ (fuel : Nat) (l : List RNote), l.length ≤ fuel → l.Pairwise onsetLe →
      (mergeLoop cfg fuel l).Pairwise onsetLe ∧
        (mergeLoop cfg fuel l).Pairwise (noMerge cfg) := by
  intro fuel
  induction fuel with
  | zero =>
    intro l h _
    match l with
    | [] => simp [mergeLoop]
    | [n] => simp [mergeLoop]
    | n :: m :: rest => simp at h
  | succ f ih =>
    intro l h hsorted
    match l with
    | [] => simp [mergeLoop]
    | [n] => simp [mergeLoop]
    | n :: m :: rest =>
      simp only [List.length_cons] at h
      obtain ⟨hn, hmrest⟩ := List.pairwise_cons.mp hsorted
      simp only [mergeLoop]
      split
      · apply ih _ (by simp; omega)
        rw [List.pairwise_cons]
        refine ⟨fun z hz => ?_, (List.pairwise_cons.mp hmrest).2⟩
        exact hn z (List.mem_cons_of_mem m hz)
      · next hgap =>
        obtain ⟨ihs, ihsep⟩ := ih (m :: rest) (by simp; omega) hmrest
        constructor
        · rw [List.pairwise_cons]
          refine ⟨fun y hy => ?_, ihs⟩
          obtain ⟨z, hz, hoz, -⟩ :=
            mergeLoop_trace cfg f (m :: rest) (by simp; omega) y hy
          unfold onsetLe
          rw [hoz]
          exact hn z hz
        · rw [List.pairwise_cons]
          refine ⟨fun y hy => ?_, ihsep⟩
          obtain ⟨z, hz, hoz, -⟩ :=
            mergeLoop_trace cfg f (m :: rest) (by simp; omega) y hy
          have hmz : m.onset_frame ≤ z.onset_frame := by
            rcases List.mem_cons.mp hz with rfl | hz'
            · exact le_refl _
            · exact (List.pairwise_cons.mp hmrest).1 z hz'
          intro hle
          apply hgap
          calc ((m.onset_frame - n.offset_frame : Int) : ℚ) * cfg.time_resolution
              ≤ ((y.onset_frame - n.offset_frame : Int) : ℚ) * cfg.time_resolution := by
                apply mul_le_mul_of_nonneg_right _ hres
                rw [hoz]
                exact_mod_cast sub_le_sub_right hmz _
            _ ≤ cfg.merge_gap_threshold := hle


theorem mergeLoop_id_of_sep (cfg : Config) :
    ∀ (fuel : Nat) (l : List RNote), l.length ≤ fuel → l.Pairwise (noMerge cfg) →
      mergeLoop cfg fuel l = l := by
  intro fuel
  induction fuel with
  | zero =>
    intro l h _
    match l with
    | [] => rfl
    | [n] => rfl
    | n :: m :: rest => simp at h
  | succ f ih =>
    intro l h hsep
    match l with
    | [] => rfl
    | [n] => rfl
    | n :: m :: rest =>
      simp only [List.length_cons] at h
      obtain ⟨hn, hmrest⟩ := List.pairwise_cons.mp hsep
      have hnm : noMerge cfg n m := hn m (List.mem_cons_self m rest)
      simp only [mergeLoop, if_neg hnm]
      rw [ih (m :: rest) (by simp; omega) hmrest]


theorem pairwise_flatMap_groups (f : Nat → List RNote)
    (hpure : ∀ p, ∀ y ∈ f p, y.pitch_idx = (p : Int))
    (hsorted : ∀ p, (f p).Pairwise onsetLe) :
    ∀ ps : List Nat, ps.Pairwise (· < ·) →
      (ps.flatMap f).Pairwise pitchOnsetLe := by
  intro ps hps
  induction ps with
  | nil => simp
  | cons p ps ih =>
    obtain ⟨hp, hps'⟩ := List.pairwise_cons.mp hps
    simp only [List.flatMap_cons]
    rw [List.pairwise_append]
    refine ⟨?_, ih hps', ?_⟩
    · apply (hsorted p).imp_of_mem
      intro a b ha hb hab
      right
      exact ⟨(hpure p a ha).trans (hpure p b hb).symm, hab⟩
    · intro a ha b hb
      obtain ⟨q, hq, hbq⟩ := List.mem_flatMap.mp hb
      left
      rw [hpure p a ha, hpure q b hbq]
      exact_mod_cast hp q hq


theorem flatMap_eq_single (f : Nat → List RNote) (ps : List Nat) (p : Nat)
    (hnd : ps.Nodup) (hp : p ∈ ps) (hz : ∀ q ∈ ps, q ≠ p → f q = []) :
    ps.flatMap f = f p := by
  induction ps with
  | nil => simp at hp
  | cons q ps ih =>
    obtain ⟨hq, hnd'⟩ := List.nodup_cons.mp hnd
    simp only [List.flatMap_cons]
    rcases List.mem_cons.mp hp with rfl | hp'
    · have hnil : ps.flatMap f = [] := by
        apply List.flatMap_eq_nil_iff.mpr
        intro r hr
        exact hz r (List.mem_cons_of_mem _ hr) (fun h => hq (h ▸ hr))
      rw [hnil, List.append_nil]
    · rw [hz q (List.mem_cons_self q ps) (fun h => hq (h ▸ hp')), List.nil_append]
      exact ih hnd' hp' (fun r hr hrp => hz r (List.mem_cons_of_mem _ hr) hrp)


/-! ## Claim theorems -/

/-- C4: for a Note Event with `time_seconds = 2.0` and `duration_seconds = 0.5`,
under `ticks_per_beat = 480` and `tempo = 500000`, the Event Formatter computes
`ticks_per_second = 960` and emits the note-on event at absolute tick 1920 and
the note-off event at absolute tick 2400. -/
theorem midi_round_trip_timing :
    ticks_per_second = 960 ∧
    create_midi_events [tNote] =
      [⟨1920, .note_on, 60, 100⟩, ⟨2400, .note_off, 60, 0⟩] := by
  decide

/-- C10: the merge pass sets the previous note's `offset_frame` unconditionally
to the merged-in note's `offset_frame`; for `nA` (frames 0–100) merged with the
contained fragment `nB` (frames 1–1, gap ≤ threshold), the merged note's end
and duration shrink, and the shrunken note is then dropped by the
minimum-duration filter — whereas `nA` alone survives the pass. -/
theorem merge_can_shrink_note_and_drop_it :
    ((nB.onset_frame - nA.offset_frame : Int) : ℚ) * defaultCfg.time_resolution ≤
      defaultCfg.merge_gap_threshold ∧
    nB.offset_frame < nA.offset_frame ∧
    mergeNotes defaultCfg nA nB =
      { onset_frame := 0, offset_frame := 1, pitch_idx := 0,
        duration_seconds := 4/125, onset_confidence := 1 } ∧
    (mergeNotes defaultCfg nA nB).offset_frame < nA.offset_frame ∧
    (mergeNotes defaultCfg nA nB).duration_seconds < nA.duration_seconds ∧
    (mergeNotes defaultCfg nA nB).duration_seconds < defaultCfg.min_note_duration ∧
    clean_and_merge_notes defaultCfg [nA, nB] = [] ∧
    clean_and_merge_notes defaultCfg [nA] = [nA] := by
  decide

/-- C2 (counterexample): the onset at frame 0 paired with the ending at frame
1000 has raw duration 32 s > `max_note_duration` = 8 s, and the Note Assembler
emits no note at all for it — the pair is discarded, not clamped to the
bound. -/
theorem long_pair_discarded_not_clamped :
    ((1000 - 0 : Int) : ℚ) * defaultCfg.time_resolution = 32 ∧
    defaultCfg.max_note_duration = 8 ∧
    create_notes_from_onsets_and_endings defaultCfg [(0, 0, 1)] [(1000, 0)] = [] := by
  decide

/-- C2 (amended): every note the Note Assembler emits has
`duration_seconds ∈ [min_note_duration, max_note_duration]`; onset/ending
pairs whose raw duration falls outside the interval produce no note. -/
theorem create_notes_duration_in_bounds (cfg : Config)
    (onset_data : List (Nat × Nat × ℚ)) (note_endings : List (Int × Nat))
    (n : RNote)
    (hn : n ∈ create_notes_from_onsets_and_endings cfg onset_data note_endings) :
    cfg.min_note_duration ≤ n.duration_seconds ∧
      n.duration_seconds ≤ cfg.max_note_duration := by
  unfold create_notes_from_onsets_and_endings at hn
  simp only [List.mem_flatMap] at hn
  obtain ⟨oc, -, hmem⟩ := hn
  split at hmem
  · split at hmem
    · next hcond =>
      simp only [List.mem_singleton] at hmem
      subst hmem
      exact hcond
    · simp at hmem
  · simp at hmem

/-- Witness for C2's amended theorem: the onset at frame 0 paired with ending
frame 10 yields the note `wNote`, whose duration 0.64 s lies within the
bounds. -/
theorem create_notes_duration_in_bounds_witness :
    wNote ∈ create_notes_from_onsets_and_endings defaultCfg [(0, 0, 1)] [(10, 0)] ∧
    defaultCfg.min_note_duration ≤ wNote.duration_seconds ∧
      wNote.duration_seconds ≤ defaultCfg.max_note_duration :=
  ⟨by decide,
   create_notes_duration_in_bounds defaultCfg [(0, 0, 1)] [(10, 0)] wNote (by decide)⟩

/-- C3 (amended): when the model returns four outputs, the offset matrix is
extracted but never used — the decoded notes do not depend on it, and the
four-output decode coincides with the three-output decode on the same onset,
frame, and velocity matrices.  This holds for every smoother, peak finder,
pitch-to-frequency map, and configuration. -/
theorem process_predictions_offset_independent
    (smooth : Mat → ℚ → Mat) (findPeaks : List ℚ → ℚ → Int → ℚ → List Nat)
    (midiToHz : Int → ℚ) (cfg : Config) (onset frame off1 off2 velocity : Mat) :
    process_predictions smooth findPeaks midiToHz cfg
        (.four onset frame off1 velocity) =
      process_predictions smooth findPeaks midiToHz cfg
        (.four onset frame off2 velocity) ∧
    process_predictions smooth findPeaks midiToHz cfg
        (.four onset frame off1 velocity) =
      process_predictions smooth findPeaks midiToHz cfg
        (.three onset frame velocity) :=
  ⟨rfl, rfl⟩

/-- C3 (counterexample): the spec's first tier would end the note at frame 2
(the first frame whose offset activation exceeds the threshold), but the
Duration Estimator of the source — which reads only the frame activations —
ends it at frame 31 (the default-duration fallback, since the frame activation
never drops). -/
theorem offset_tier_counterexample :
    spec_offset_candidate_end (3/10) offSpike 0 0 = some 2 ∧
    find_note_endings_from_frames defaultCfg frameAllOn [(0, 0)] = [(31, 0)] ∧
    (31 : Int) ≠ 2 := by
  decide

/-- C5 (counterexample): with two chunks where the first chunk's decode fails
and the second finds one note, the coordinator returns that one (shifted)
note; it does not fall back to the whole-audio decode, which would have
returned `fullNote`. -/
theorem chunk_decode_failure_not_full_fallback :
    process_long_audio_in_chunks envChunkFail "audio.wav" =
      .ok [shiftedChunkNote] ∧
    envChunkFail.decodeChunk "audio.wav" = .ok [fullNote] ∧
    shiftedChunkNote ≠ fullNote := by
  decide

/-- C1: the final note list at each pipeline exit point — the list returned by
`convert_to_music_format` for one decode pass and the deduplicated list
returned by `remove_duplicate_notes` (the list `process_long_audio_in_chunks`
returns in the multi-chunk case) — is non-decreasing in the note's time
field. -/
theorem final_note_lists_sorted :
    (∀ (midiToHz : Int → ℚ) (cfg : Config) (processed : List RNote),
      List.Sorted noteTimeLe (convert_to_music_format midiToHz cfg processed)) ∧
    (∀ (all_notes : List MusicNote) (od : ℚ),
      List.Sorted noteTimeLe (remove_duplicate_notes all_notes od)) := by
  constructor
  · intro midiToHz cfg processed
    exact List.sorted_insertionSort noteTimeLe _
  · intro all_notes od
    unfold remove_duplicate_notes
    split
    · exact List.sorted_nil
    · obtain ⟨s, h1, h2⟩ :=
        dedupScan_eq_append (List.insertionSort noteTimeLe all_notes) []
      rw [h1, List.nil_append]
      exact (List.sorted_insertionSort noteTimeLe all_notes).sublist h2

/-- C6 (amended): if two notes of the same pitch lie within 0.5 s of each
other in the scan order, the earlier one `a` is accepted by the scan, and at
most 9 notes between them are accepted, then the later one `b` is dropped: the
scan's outcome is the same as if `b` were absent.  (The original claim fails
when `a` itself was dropped as a duplicate; see the counterexample.) -/
theorem dedup_drops_later_near_duplicate
    (pre mid post : List MusicNote) (a b : MusicNote)
    (hpitch : b.pitch = a.pitch) (htime : |b.time - a.time| < 1/2)
    (hacc : dedupScan [] (pre ++ [a]) = dedupScan [] pre ++ [a])
    (hcount : (dedupScan [] ((pre ++ [a]) ++ mid)).length ≤
      (dedupScan [] (pre ++ [a])).length + 9) :
    dedupScan [] (((pre ++ [a]) ++ mid) ++ b :: post) =
      dedupScan [] (((pre ++ [a]) ++ mid) ++ post) := by
  obtain ⟨s, hs, -⟩ := dedupScan_eq_append mid (dedupScan [] (pre ++ [a]))
  have hacc3 : dedupScan [] ((pre ++ [a]) ++ mid) =
      (dedupScan [] pre ++ [a]) ++ s := by
    rw [dedupScan_append, hs, hacc]
  have hslen : s.length ≤ 9 := by
    rw [hacc3, hacc] at hcount
    simp only [List.length_append, List.length_cons] at hcount
    omega
  have hmem : a ∈ lastTen (dedupScan [] ((pre ++ [a]) ++ mid)) := by
    rw [hacc3]
    exact mem_lastTen_of_short _ _ _ hslen
  have hdup : (lastTen (dedupScan [] ((pre ++ [a]) ++ mid))).any
      (fun e => decide (isDuplicateOf b e)) = true := by
    refine List.any_eq_true.mpr ⟨a, hmem, ?_⟩
    rw [decide_eq_true_iff]
    exact ⟨by rw [hpitch]; simp, htime⟩
  rw [dedupScan_append ((pre ++ [a]) ++ mid) (b :: post),
    dedupScan_append ((pre ++ [a]) ++ mid) post]
  simp only [dedupScan, hdup, if_true]

/-- Witness for C6's amended theorem: `dupB` (same pitch, 0.4 s after `dupA`)
is dropped when scanned right after the accepted `dupA`. -/
theorem dedup_drops_later_near_duplicate_witness :
    dupB.pitch = dupA.pitch ∧ |dupB.time - dupA.time| < 1/2 ∧
    dedupScan [] ((([] ++ [dupA]) ++ []) ++ dupB :: []) =
      dedupScan [] ((([] ++ [dupA]) ++ []) ++ []) :=
  ⟨by decide, by decide,
   dedup_drops_later_near_duplicate [] [] [] dupA dupB (by decide) (by decide)
     (by decide) (by decide)⟩

/-- C6 (counterexample): `dupB` and `dupD` share a pitch, lie 0.05 s apart,
and have no accepted note between them, yet the deduplicated output contains
neither of them — both were dropped as duplicates of `dupA` — refuting the
claim that exactly one of the two always survives. -/
theorem dedup_both_near_duplicates_dropped :
    dupB.pitch = dupD.pitch ∧ |dupB.time - dupD.time| < 1/2 ∧
    remove_duplicate_notes [dupA, dupB, dupD] 2 = [dupA] ∧
    dupB ∉ remove_duplicate_notes [dupA, dupB, dupD] 2 ∧
    dupD ∉ remove_duplicate_notes [dupA, dupB, dupD] 2 := by
  decide

/-- C8: every emitted note-on event of a note with `velocity_midi > 5` carries
velocity exactly 100, and one with `velocity_midi ≤ 5` carries
`velocity_midi` clamped into `[0, 127]`. -/
theorem midi_velocity_sanity_rule (notes : List MusicNote) (n : MusicNote)
    (hn : n ∈ notes) (hvalid : ¬(n.time < 0 ∨ n.duration ≤ 0)) :
    (5 < n.velocity_midi →
      (⟨onsetTick n, .note_on, n.pitch, 100⟩ : MidiEvent) ∈
        create_midi_events notes) ∧
    (n.velocity_midi ≤ 5 →
      (⟨onsetTick n, .note_on, n.pitch, max 0 (min 127 n.velocity_midi)⟩ :
        MidiEvent) ∈ create_midi_events notes) := by
  constructor <;> intro hv <;>
  · unfold create_midi_events
    simp only [List.mem_insertionSort]
    refine List.mem_flatMap.mpr ⟨n, (List.mem_insertionSort noteTimeLe).mpr hn, ?_⟩
    rw [if_neg hvalid]
    simp only [List.mem_cons]
    left
    first
    | · simp only [onsetTick, if_pos hv]
        norm_num
    | · simp only [onsetTick, if_neg (not_lt.mpr hv)]

/-- Witness for C8: `tNote` (velocity 90 > 5) is emitted with velocity 100;
`lowNote` (velocity 3 ≤ 5) is emitted with velocity 3. -/
theorem midi_velocity_sanity_rule_witness :
    (⟨1920, .note_on, 60, 100⟩ : MidiEvent) ∈ create_midi_events [tNote] ∧
    (⟨3840, .note_on, 60, 3⟩ : MidiEvent) ∈ create_midi_events [lowNote] := by
  constructor
  · have e : onsetTick tNote = 1920 := by decide
    have h := (midi_velocity_sanity_rule [tNote] tNote (by decide) (by decide)).1
      (by decide)
    rw [e] at h
    exact h
  · have e : onsetTick lowNote = 3840 := by decide
    have e2 : max 0 (min 127 lowNote.velocity_midi) = 3 := by decide
    have h := (midi_velocity_sanity_rule [lowNote] lowNote (by decide) (by decide)).2
      (by decide)
    rw [e, e2] at h
    exact h

/-- C9: in the Note Assembler's velocity step, every note whose clamped
velocity scaled to the MIDI range falls below 20 gets `velocity_midi = 60`. -/
theorem add_velocity_floor (notes : List RNote) (vp : Mat) (m : RNote)
    (hm : m ∈ add_velocity_to_notes notes vp) (vs : ℚ)
    (hvs : m.velocity_scaled = some vs) (hlow : pyInt (vs * 127) < 20) :
    m.velocity_midi = some 60 := by
  unfold add_velocity_to_notes at hm
  simp only [List.mem_map] at hm
  obtain ⟨note, -, rfl⟩ := hm
  simp only [Option.some.injEq] at hvs
  rw [← hvs] at hlow
  simp only [if_pos hlow]

/-- Witness for C9: a note with `velocity_scaled = 0.05` (which scales to MIDI
value 6) is emitted with `velocity_midi = 60`. -/
theorem add_velocity_floor_witness :
    add_velocity_to_notes [rn0] vp0 = [rnV] ∧
    rnV.velocity_scaled = some (1/20) ∧ pyInt (1/20 * 127) = 6 ∧
    rnV.velocity_midi = some 60 :=
  ⟨by decide, by decide, by decide,
   add_velocity_floor [rn0] vp0 rnV (by decide) (1/20) (by decide) (by decide)⟩

/-- C5 (amended): if splitting fails, the coordinator decodes the whole audio
as a single chunk (and a failure of that decode propagates as the request's
outcome); if an individual chunk's decode fails while splitting succeeded with
several chunks, that chunk simply contributes no notes — the outcome equals
the run in which that chunk decodes to the empty list, with no whole-audio
fallback. -/
theorem chunk_failure_handling :
    (∀ (env : ChunkEnv) (audio_path msg : String),
      env.splitResult = .error msg →
      process_long_audio_in_chunks env audio_path = env.decodeChunk audio_path) ∧
    (∀ (env : ChunkEnv) (audio_path chunk_path msg : String)
      (chunks : List (String × ℚ × ℚ)),
      env.splitResult = .ok chunks → chunks.length ≠ 1 →
      env.decodeChunk chunk_path = .error msg →
      process_long_audio_in_chunks env audio_path =
        process_long_audio_in_chunks
          { env with decodeChunk := fun p =>
              if p = chunk_path then .ok [] else env.decodeChunk p }
          audio_path) := by
  constructor
  · intro env audio_path msg hsplit
    unfold process_long_audio_in_chunks split_audio_into_chunks
    rw [hsplit]
    simp only [List.length_singleton, if_pos rfl, if_true]
    cases h : env.decodeChunk audio_path <;> simp [h]
  · intro env audio_path chunk_path msg chunks hsplit hlen hc
    unfold process_long_audio_in_chunks split_audio_into_chunks
    rw [hsplit]
    simp only [if_neg hlen]
    congr 2
    apply List.flatMap_congr
    intro ch _
    unfold process_single_chunk
    by_cases hp : ch.1 = chunk_path
    · rw [hp, hc]
      simp only [hp, if_pos rfl]
      simp
    · simp only [if_neg hp]

/-- Witness for C5's amended theorem: in `envSplitFail` the outcome is the
whole-audio decode; in `envOneBad` replacing the failed second chunk by an
empty decode leaves the outcome unchanged. -/
theorem chunk_failure_handling_witness :
    process_long_audio_in_chunks envSplitFail "audio.wav" =
      envSplitFail.decodeChunk "audio.wav" ∧
    process_long_audio_in_chunks envOneBad "audio.wav" =
      process_long_audio_in_chunks
        { envOneBad with decodeChunk := fun p =>
            if p = "c1.wav" then .ok [] else envOneBad.decodeChunk p }
        "audio.wav" :=
  ⟨chunk_failure_handling.1 envSplitFail "audio.wav" "librosa failure" rfl,
   chunk_failure_handling.2 envOneBad "audio.wav" "c1.wav" "decode failure"
     [("c0.wav", 0, 2504/125), ("c1.wav", 2254/125, 30)] rfl (by decide) (by decide)⟩


/-- C7: the merge pass is idempotent — applying `clean_and_merge_notes` to its
own output changes nothing: the first pass leaves every surviving pair of
same-pitch notes separated by more than the merge-gap threshold (even across
notes removed by the duration filter, since a removed note's onset bounds the
following gap from below), so the second pass merges nothing and its duration
filter drops nothing.  Holds for every note list and every configuration with
a non-negative time resolution. -/
theorem clean_and_merge_idempotent (cfg : Config) (hres : 0 ≤ cfg.time_resolution)
    (notes : List RNote) :
    clean_and_merge_notes cfg (clean_and_merge_notes cfg notes) =
      clean_and_merge_notes cfg notes := by
  by_cases h0 : notes.isEmpty
  · have h1 : clean_and_merge_notes cfg notes = notes := by
      unfold clean_and_merge_notes
      rw [if_pos h0]
    rw [h1]
    exact h1
  · have hout : clean_and_merge_notes cfg notes =
        (List.range 88).flatMap (fun p =>
          durFilter cfg (mergeChains cfg (pitchFilter p
            (List.insertionSort pitchOnsetLe notes)))) := by
      unfold clean_and_merge_notes
      rw [if_neg h0]
      unfold durFilter
      rw [List.filter_flatMap]
    set Gf : Nat → List RNote := fun p =>
      durFilter cfg (mergeChains cfg (pitchFilter p
        (List.insertionSort pitchOnsetLe notes))) with hGf
    rw [hout]
    have hGp : ∀ p : Nat,
        (mergeChains cfg (pitchFilter p
          (List.insertionSort pitchOnsetLe notes))).Pairwise onsetLe ∧
        (mergeChains cfg (pitchFilter p
          (List.insertionSort pitchOnsetLe notes))).Pairwise (noMerge cfg) := by
      intro p
      unfold mergeChains
      apply mergeLoop_sorted_sep cfg hres _ _ le_rfl
      have hfil : (pitchFilter p
          (List.insertionSort pitchOnsetLe notes)).Pairwise pitchOnsetLe := by
        unfold pitchFilter
        exact (List.sorted_insertionSort pitchOnsetLe notes).filter _
      apply hfil.imp_of_mem
      intro a b ha hb hab
      have hpa : a.pitch_idx = (p : Int) := by
        unfold pitchFilter at ha
        exact of_decide_eq_true (List.mem_filter.mp ha).2
      have hpb : b.pitch_idx = (p : Int) := by
        unfold pitchFilter at hb
        exact of_decide_eq_true (List.mem_filter.mp hb).2
      unfold onsetLe
      rcases hab with h | ⟨-, h⟩
      · rw [hpa, hpb] at h
        exact absurd h (lt_irrefl _)
      · exact h
    have hpure : ∀ p : Nat, ∀ y ∈ Gf p, y.pitch_idx = (p : Int) := by
      intro p y hy
      simp only [hGf] at hy
      unfold durFilter at hy
      have hy' := (List.mem_filter.mp hy).1
      unfold mergeChains at hy'
      obtain ⟨z, hz, -, hpz⟩ := mergeLoop_trace cfg _ _ le_rfl y hy'
      rw [hpz]
      unfold pitchFilter at hz
      exact of_decide_eq_true (List.mem_filter.mp hz).2
    have hsorted : ∀ p : Nat, (Gf p).Pairwise onsetLe := by
      intro p
      simp only [hGf]
      unfold durFilter
      exact ((hGp p).1).filter _
    have hsep : ∀ p : Nat, (Gf p).Pairwise (noMerge cfg) := by
      intro p
      simp only [hGf]
      unfold durFilter
      exact ((hGp p).2).filter _
    have hout_sorted : ((List.range 88).flatMap Gf).Pairwise pitchOnsetLe :=
      pairwise_flatMap_groups Gf hpure hsorted (List.range 88)
        (List.pairwise_lt_range 88)
    by_cases hout0 : ((List.range 88).flatMap Gf).isEmpty
    · unfold clean_and_merge_notes
      rw [if_pos hout0]
    · unfold clean_and_merge_notes
      rw [if_neg hout0]
      dsimp only
      rw [List.Sorted.insertionSort_eq hout_sorted]
      have hfilter : ∀ p ∈ List.range 88,
          pitchFilter p ((List.range 88).flatMap Gf) = Gf p := by
        intro p hp
        unfold pitchFilter
        rw [List.filter_flatMap]
        have hside : ∀ q ∈ List.range 88, q ≠ p →
            (Gf q).filter (fun n => decide (n.pitch_idx = (p : Int))) = [] := by
          intro q _ hqp
          apply List.filter_eq_nil_iff.mpr
          intro y hy
          simp only [decide_eq_true_eq]
          rw [hpure q y hy]
          exact fun h => hqp (Nat.cast_inj.mp h)
        rw [flatMap_eq_single
          (fun q => (Gf q).filter (fun n => decide (n.pitch_idx = (p : Int))))
          (List.range 88) p (List.nodup_range 88) hp hside]
        exact List.filter_eq_self.mpr (fun y hy => decide_eq_true (hpure p y hy))
      have hmain : ((List.range 88).flatMap fun p =>
          mergeChains cfg (pitchFilter p ((List.range 88).flatMap Gf))) =
          (List.range 88).flatMap Gf := by
        apply List.flatMap_congr
        intro p hp
        rw [hfilter p hp]
        unfold mergeChains
        exact mergeLoop_id_of_sep cfg (Gf p).length (Gf p) le_rfl (hsep p)
      rw [hmain]
      unfold durFilter
      apply List.filter_eq_self.mpr
      intro y hy
      obtain ⟨p, -, hyp⟩ := List.mem_flatMap.mp hy
      simp only [hGf] at hyp
      unfold durFilter at hyp
      exact (List.mem_filter.mp hyp).2


/-- Witness for C7 at the default configuration. -/
theorem clean_and_merge_idempotent_witness :
    (0 : ℚ) ≤ defaultCfg.time_resolution ∧
    clean_and_merge_notes defaultCfg (clean_and_merge_notes defaultCfg [nA, nB]) =
      clean_and_merge_notes defaultCfg [nA, nB] :=
  ⟨by decide, clean_and_merge_idempotent defaultCfg (by decide) [nA, nB]⟩

end AMT
